import Mathlib

/-!
# Verification of the TTS-API phonological encoding pipeline

A shallow embedding, in Lean 4, of `src/application.py` of the TTS-API
repository: the per-syllable phonological encoder (`generate_audio`,
lines 82–115), the id-sequence builder with blank interspersion
(lines 116–125), the process-wide model cache (lines 72–80), and the
request pipeline `app` (lines 34–70) with its error taxonomy.

Strings are embedded as Lean `String`/`List Char`; Python byte strings as
`List Nat` (each element < 256); machine-level details (tensors, the neural
synthesis call, WAV encoding) are out of scope: the success payload of a
request is represented by the data that fully determines it — the model
handle, the three interspersed id sequences and the speed option.

Python standard-library functions used by the source (`int(_, base=7)`,
`str.lower`, `str.split`, `str.encode("latin_1")`, `bytes.decode()`,
`urllib.parse.parse_qs`, `float`) are embedded faithfully on the domains
the program can reach; each embedding carries a comment stating its scope.
-/

set_option autoImplicit false

namespace TTSApi

/-- The two supported languages (`{"waitau", "hakka"}`, line 37). -/
inductive Language
  | waitau
  | hakka
deriving DecidableEq, Repr

/-- `Language.str` — the lowercase request-path spelling of a language. -/
def Language.str : Language → String
  | .waitau => "waitau"
  | .hakka => "hakka"

/-- The vowel scan set `"aeiouäöüæ"` of line 93. -/
def vowelSet : List Char := ['a', 'e', 'i', 'o', 'u', 'ä', 'ö', 'ü', 'æ']

/-- `c in "aeiouäöüæ"` (line 93). -/
def isVowel (c : Char) : Bool := vowelSet.contains c

/-- First code point of every run of ten consecutive Unicode decimal digits
(category Nd, digit values 0–9), per UnicodeData: exactly the characters
accepted as digits by CPython `int(str, base)`. -/
def ndZeros : List Nat :=
  [0x30, 0x660, 0x6f0, 0x7c0, 0x966, 0x9e6, 0xa66, 0xae6, 0xb66, 0xbe6,
   0xc66, 0xce6, 0xd66, 0xde6, 0xe50, 0xed0, 0xf20, 0x1040, 0x1090, 0x17e0,
   0x1810, 0x1946, 0x19d0, 0x1a80, 0x1a90, 0x1b50, 0x1bb0, 0x1c40, 0x1c50,
   0xa620, 0xa8d0, 0xa900, 0xa9d0, 0xa9f0, 0xaa50, 0xabf0, 0xff10,
   0x104a0, 0x10d30, 0x11066, 0x110f0, 0x11136, 0x111d0, 0x112f0, 0x11450,
   0x114d0, 0x11650, 0x116c0, 0x11730, 0x118e0, 0x11950, 0x11c50, 0x11d50,
   0x11da0, 0x16a60, 0x16ac0, 0x16b50, 0x1d7ce, 0x1d7d8, 0x1d7e2, 0x1d7ec,
   0x1d7f6, 0x1e140, 0x1e2f0, 0x1e950, 0x1fbf0]

/-- The decimal digit value of a character, when it has one: the digit
semantics of CPython `int` (any Unicode Nd digit, not only ASCII). -/
def digitVal (c : Char) : Option Nat :=
  ndZeros.findSome? fun z =>
    if z ≤ c.toNat ∧ c.toNat ≤ z + 9 then some (c.toNat - z) else none

/-- `int(c, base=7)` on a one-character string `c` (line 90): succeeds
exactly on decimal digits of value 0–6.  (For one-character input the
whitespace-stripping, sign and underscore rules of `int` cannot apply:
a lone sign, underscore or space is rejected, as here.) -/
def toneOfChar (c : Char) : Option Nat :=
  match digitVal c with
  | some v => if v < 7 then some v else none
  | none => none

/-- The indices yielded, in order, by the generator
`(i for i, c in enumerate(syllable) if c in "aeiouäöüæ")` of line 93. -/
def vowelIdxs (cs : List Char) : List Nat :=
  (cs.enum.filter fun p => isVowel p.2).map Prod.fst

/-- Errors raised inside `generate_audio`: `ToneError` carries its message
(line 92); `SymbolError` carries the key of the `KeyError` cause
(lines 119–120). -/
inductive GenError
  | tone (msg : String)
  | symbol (key : String)
deriving DecidableEq, Repr

/-- The `ToneError` message of line 92. -/
def toneErrMsg (syl : List Char) : String :=
  "'" ++ String.mk syl ++ "' does not end with tone 0~6"

/-- One iteration of the per-syllable loop of `generate_audio`
(lines 83–111): the phones and tones the syllable contributes, and the
element appended to `word2ph`.

`syl` is one token of `text.split()` and hence nonempty; the `List.getD`
defaults are never reached on that domain. -/
def encodeSyllable (language : Language) (syl : List Char) :
    Except GenError (List String × List Nat × Nat) :=
  if syl.length = 1 then
    -- lines 84–88: a single character is emitted verbatim, tone 0, count 1
    .ok ([String.mk syl], [0], 1)
  else
    -- line 90: tone = int(syllable[-1], base=7)
    match toneOfChar (syl.getLastD ' ') with
    | none => .error (.tone (toneErrMsg syl))
    | some tone =>
      -- lines 93–95: first-vowel scan, defaulting to 0; initial = prefix
      let idxs := vowelIdxs syl
      let index := idxs.headD 0
      let initial := String.mk (syl.take index)
      match language with
      | .waitau =>
        -- lines 96–100: final = syllable[index:-1]; two phones, same tone
        let final := String.mk ((syl.drop index).dropLast)
        .ok ([initial, final], [tone, tone], 2)
      | .hakka =>
        -- lines 102–111: medial "#" by default, "i" after initial "y";
        -- when the nucleus is "i", the generator is polled once more:
        -- a later vowel (default: the nucleus index itself) advances the
        -- final and forces the medial to "i"
        let medial0 := if initial = "y" then "i" else "#"
        let finalIndex :=
          if syl.getD index ' ' = 'i' then idxs.getD 1 index else index
        let medial :=
          if syl.getD index ' ' = 'i' ∧ finalIndex ≠ index then "i" else medial0
        let final := String.mk ((syl.drop finalIndex).dropLast)
        .ok ([initial, medial, final],
             [tone, if medial = "#" then 0 else tone, tone], 3)

/-- The whitespace characters on which Python `str.split()` (no argument)
splits, per CPython's `Py_UNICODE_ISSPACE`. -/
def pySpace : List Char :=
  ['\x09', '\x0a', '\x0b', '\x0c', '\x0d', '\x1c', '\x1d', '\x1e', '\x1f',
   '\x20', '\x85', '\xa0', '\u1680', '\u2000', '\u2001', '\u2002', '\u2003',
   '\u2004', '\u2005', '\u2006', '\u2007', '\u2008', '\u2009', '\u200a',
   '\u2028', '\u2029', '\u202f', '\u205f', '\u3000']

/-- Worker for `text.split()` (line 83) on the character list: collects the
maximal runs of non-whitespace characters, with no empty tokens for
leading, trailing or repeated whitespace; `acc` holds the current token in
reverse. -/
def pySplitAux : List Char → List Char → List (List Char)
  | [], acc => if acc = [] then [] else [acc.reverse]
  | c :: cs, acc =>
    if pySpace.contains c then
      if acc = [] then pySplitAux cs []
      else acc.reverse :: pySplitAux cs []
    else pySplitAux cs (c :: acc)

/-- The tokens of `text.split()` (line 83), via `pySplitAux`. -/
def pySplitChars (cs : List Char) : List (List Char) := pySplitAux cs []

/-- `text.split()` (line 83). -/
def pySplit (s : String) : List String := (pySplitChars s.data).map String.mk

/-- `s.split(sep)` for a one-character separator, as Python defines it:
one part per separator occurrence plus one, empty parts preserved. -/
def splitOnChar (sep : Char) : List Char → List (List Char)
  | [] => [[]]
  | c :: cs =>
    if c = sep then [] :: splitOnChar sep cs
    else
      match splitOnChar sep cs with
      | [] => [[c]]
      | t :: ts => (c :: t) :: ts

/-- `name_value.split("=", 1)`: cut at the first separator, if any. -/
def splitFirst (sep : Char) : List Char → Option (List Char × List Char)
  | [] => none
  | c :: cs =>
    if c = sep then some ([], cs)
    else (splitFirst sep cs).map fun p => (c :: p.1, p.2)

/-- The boundary pad phone.  Modelled from the spec: `symbols.pad`
(`symbols.py` is not under `src/`) is "a designated phone symbol marking
sequence start/end, distinct from ordinary phones"; no claim depends on
its identity, only on its tone/count bookkeeping. -/
def pad : String := "_"

/-- The syllable loop of lines 83–111 over a list of tokens: concatenates
each syllable's phones and tones and collects the `word2ph` entries,
failing at the first `ToneError` exactly as the Python loop does. -/
def encodeSyllables (language : Language) :
    List (List Char) → Except GenError (List String × List Nat × List Nat)
  | [] => .ok ([], [], [])
  | s :: rest => do
    let (p, t, w) ← encodeSyllable language s
    let (ps, ts, ws) ← encodeSyllables language rest
    .ok (p ++ ps, t ++ ts, w :: ws)

/-- Lines 82–115 of `generate_audio`: the phone, tone and `word2ph`
sequences for a whole text, initialized with and terminated by the
boundary pad (tone 0, count 1). -/
def encode (language : Language) (text : String) :
    Except GenError (List String × List Nat × List Nat) := do
  let (p, t, w) ← encodeSyllables language ((pySplit text).map String.data)
  .ok (pad :: (p ++ [pad]), 0 :: (t ++ [0]), 1 :: (w ++ [1]))

/-- Modelled from the spec: `commons.intersperse` (`commons.py` is not under
`src/`): "interleave a blank token between every adjacent pair of elements
... and also before the first and after the last element — for an input of
length n this yields an output of length 2n+1, with original elements at odd
positions (0-indexed) and blanks at even positions" (§4.2). -/
def intersperse {α : Type} (lst : List α) (item : α) : List α :=
  item :: lst.foldr (fun x acc => x :: item :: acc) []

/-- A per-language symbol table.  Modelled from the spec: `symbols.py` is not
under `src/`; §2 fixes only that each table is a finite immutable mapping
from phonological symbol to integer id, so the pipeline is parametric in it. -/
def SymbolTable := String → Option Nat

/-- Lines 117–120: `[symbol_to_id[symbol] for symbol in phones]`, raising
`SymbolError` from the `KeyError` of the first missing symbol. -/
def lookupSymbols (table : SymbolTable) :
    List String → Except GenError (List Nat)
  | [] => .ok []
  | s :: rest =>
    match table s with
    | none => .error (.symbol s)
    | some i => do
      let is ← lookupSymbols table rest
      .ok (i :: is)

/-- A loaded synthesis-engine handle.  Modelled from the spec: `utils.load_model`
(`utils.py` is not under `src/`) "synchronously load[s] engine weights and
shared configuration from a language-appropriate asset location" (§4.3); a
handle is represented by the loading arguments that determine it (weight
path, config path, and the language whose symbol count is passed as the
third argument), making loading deterministic per key. -/
structure Model where
  weights : String
  config : String
  language : Language
deriving DecidableEq, Repr

/-- Line 80: `load_model(f"data/{name}.pth", "data/config.json", len(…_symbols))`. -/
def load_model (name : String) (language : Language) : Model :=
  ⟨"data/" ++ name ++ ".pth", "data/config.json", language⟩

/-- The process-wide `models` dict (line 72), as an insertion-ordered
association list (Python dicts preserve insertion order). -/
abbrev Models := List (String × Model)

/-- `name = f"{language}_{voice}"` (line 78). -/
def modelKey (language : Language) (voice : String) : String :=
  language.str ++ "_" ++ voice

/-- Lines 78–80: the fetch-or-load step on the model cache — on a miss the
handle is loaded and inserted, on a hit the cached handle is returned
(`models[name]` is read back at line 141). -/
def getOrLoad (models : Models) (language : Language) (voice : String) :
    Models × Model :=
  let name := modelKey language voice
  match models.lookup name with
  | some m => (models, m)
  | none =>
    (models ++ [(name, load_model name language)], load_model name language)

/-- The three interspersed id sequences handed to the synthesis engine
(lines 121–148). -/
structure Sequences where
  phoneIds : List Nat
  toneIds : List Nat
  langIds : List Nat
deriving DecidableEq, Repr

/-- Lines 82–125 of `generate_audio`: encode the text, map the phone
symbols to ids, build the all-zero language-id sequence of equal length,
and intersperse a blank (id 0) into each of the three sequences. -/
def buildSequences (table : SymbolTable) (language : Language)
    (text : String) : Except GenError Sequences := do
  let (phones, tones, _word2ph) ← encode language text
  let phoneIds ← lookupSymbols table phones
  let langIds := List.replicate phoneIds.length 0
  .ok { phoneIds := intersperse phoneIds 0
        toneIds := intersperse tones 0
        langIds := intersperse langIds 0 }

/-- `generate_audio` (lines 75–161), up to the data handed to the external
synthesis engine: threads the model cache (lines 78–80), then builds the
interspersed sequences (lines 82–125); the returned handle and sequences
(with the speed option) determine the synthesized audio.  The doubled
`word2ph` of lines 126–128 is computed by the source and immediately
discarded (`del word2ph`); it is embedded separately as `word2phFinal`. -/
def generate_audio (table : SymbolTable) (models : Models)
    (language : Language) (voice : String) (text : String) :
    Models × Except GenError (Model × Sequences) :=
  let (models', handle) := getOrLoad models language voice
  (models', (buildSequences table language text).map fun seqs => (handle, seqs))

/-- Lines 126–127: `word2ph = [n * 2 for n in word2ph]; word2ph[0] += 1` —
computed and then discarded by the source (line 128, `del word2ph`). -/
def word2phFinal (word2ph : List Nat) : List Nat :=
  match word2ph.map (· * 2) with
  | [] => []
  | n :: rest => (n + 1) :: rest

/-- `s.encode("latin_1")` on a WSGI `str` (lines 36 and 38): one byte per
character below U+0100; a character at or above U+0100 raises
`UnicodeEncodeError` whose offending range is the run of consecutive
unencodable characters starting at the first one. -/
def latin1Encode : List Char → Except (List Char) (List Nat)
  | [] => .ok []
  | c :: cs =>
    if c.toNat < 256 then do
      let bs ← latin1Encode cs
      .ok (c.toNat :: bs)
    else .error (c :: cs.takeWhile fun d => 256 ≤ d.toNat)

/-- Whether `c` may appear as continuation byte number 1 after lead byte
`lead`: CPython's UTF-8 acceptor restricts the first continuation to exclude
overlong forms (`E0`, `F0`), surrogates (`ED`) and code points above
U+10FFFF (`F4`). -/
def validCont1 (lead c : Nat) : Bool :=
  if lead = 0xE0 then 0xA0 ≤ c ∧ c ≤ 0xBF
  else if lead = 0xED then 0x80 ≤ c ∧ c ≤ 0x9F
  else if lead = 0xF0 then 0x90 ≤ c ∧ c ≤ 0xBF
  else if lead = 0xF4 then 0x80 ≤ c ∧ c ≤ 0x8F
  else 0x80 ≤ c ∧ c ≤ 0xBF

/-- An unconstrained UTF-8 continuation byte. -/
def isCont (c : Nat) : Bool := 0x80 ≤ c ∧ c ≤ 0xBF

/-- `bytes.decode()` — strict UTF-8 decoding as CPython performs it
(line 36 and inside `parse_qs`): rejects invalid start bytes, overlong
encodings, surrogates, code points above U+10FFFF and truncated sequences.
On failure it returns the offending byte range of the raised
`UnicodeDecodeError`: the maximal subpart of the ill-formed sequence (the
lead byte plus the continuation bytes already accepted). -/
def utf8Decode : List Nat → Except (List Nat) (List Char)
  | [] => .ok []
  | b :: bs =>
    if b < 0x80 then do
      let cs ← utf8Decode bs
      .ok (Char.ofNat b :: cs)
    else if b < 0xC2 ∨ 0xF5 ≤ b then .error [b]
    else if b < 0xE0 then
      match bs with
      | [] => .error [b]
      | c1 :: rest =>
        if validCont1 b c1 then do
          let cs ← utf8Decode rest
          .ok (Char.ofNat ((b - 0xC0) * 0x40 + (c1 - 0x80)) :: cs)
        else .error [b]
    else if b < 0xF0 then
      match bs with
      | [] => .error [b]
      | c1 :: bs1 =>
        if validCont1 b c1 then
          match bs1 with
          | [] => .error [b, c1]
          | c2 :: rest =>
            if isCont c2 then do
              let cs ← utf8Decode rest
              .ok (Char.ofNat ((b - 0xE0) * 0x1000 + (c1 - 0x80) * 0x40 +
                    (c2 - 0x80)) :: cs)
            else .error [b, c1]
        else .error [b]
    else
      match bs with
      | [] => .error [b]
      | c1 :: bs1 =>
        if validCont1 b c1 then
          match bs1 with
          | [] => .error [b, c1]
          | c2 :: bs2 =>
            if isCont c2 then
              match bs2 with
              | [] => .error [b, c1, c2]
              | c3 :: rest =>
                if isCont c3 then do
                  let cs ← utf8Decode rest
                  .ok (Char.ofNat ((b - 0xF0) * 0x40000 +
                        (c1 - 0x80) * 0x1000 + (c2 - 0x80) * 0x40 +
                        (c3 - 0x80)) :: cs)
                else .error [b, c1, c2]
            else .error [b, c1]
        else .error [b]

/-- `bytes(bs).decode("latin_1")` — total, one character per byte: how
lines 54–55 render the offending bytes of a `UnicodeDecodeError`. -/
def latin1OfBytes (bs : List Nat) : String := String.mk (bs.map Char.ofNat)

/-- CPython `str.lower`, exact on every code point below U+0100 (ASCII
`A`–`Z` and the Latin-1 Supplement uppercase letters, `×` excepted;
`ß`, `µ` and `ÿ` are fixed points) and the identity above it.  Every
concrete input below is Latin-1, and the route/option literals the result
is compared against are ASCII, so the restriction is invisible here. -/
def pyLower (c : Char) : Char :=
  if 'A' ≤ c ∧ c ≤ 'Z' then Char.ofNat (c.toNat + 32)
  else if 0xC0 ≤ c.toNat ∧ c.toNat ≤ 0xDE ∧ c.toNat ≠ 0xD7 then
    Char.ofNat (c.toNat + 32)
  else c

/-- `s.lower()` (lines 36 and 38). -/
def pyLowerStr (s : String) : String := String.mk (s.data.map pyLower)

/-- `s.strip("/")` (line 36). -/
def stripSlashes (s : String) : String :=
  String.mk (((s.data.dropWhile (· = '/')).reverse.dropWhile (· = '/')).reverse)

/-- Line 36 / line 38 prefix `x.encode("latin_1").decode()`: re-encode the
WSGI `str` to its raw request-line bytes, then decode those bytes as UTF-8.
A failure carries the message the handler at lines 52–56 produces: the
offending slice itself for an encode error (a `str`), the latin-1 rendering
of the offending byte range for a decode error. -/
def recodeLatin1Utf8 (s : String) : Except String String :=
  match latin1Encode s.data with
  | .error run => .error (String.mk run)
  | .ok bytes =>
    match utf8Decode bytes with
    | .error bad => .error (latin1OfBytes bad)
    | .ok cs => .ok (String.mk cs)

/-- The value of an ASCII hexadecimal digit. -/
def hexVal (c : Char) : Option Nat :=
  if '0' ≤ c ∧ c ≤ '9' then some (c.toNat - 48)
  else if 'a' ≤ c ∧ c ≤ 'f' then some (c.toNat - 87)
  else if 'A' ≤ c ∧ c ≤ 'F' then some (c.toNat - 55)
  else none

/-- `urllib.parse.unquote_to_bytes` on an ASCII chunk: after each `%`, a
valid hexadecimal pair becomes one byte and the remainder passes through;
a `%` not followed by a hexadecimal pair stays literal. -/
def unquoteToBytes : List Char → List Nat
  | [] => []
  | '%' :: a :: b :: rest =>
    match hexVal a, hexVal b with
    | some hi, some lo => (hi * 16 + lo) :: unquoteToBytes rest
    | _, _ => '%'.toNat :: unquoteToBytes (a :: b :: rest)
  | '%' :: rest => '%'.toNat :: unquoteToBytes rest
  | c :: rest => c.toNat :: unquoteToBytes rest

/-- `urllib.parse.unquote(string, errors="strict")`: each maximal ASCII run
is percent-decoded to bytes and decoded as strict UTF-8 (a failure raises
`UnicodeDecodeError`, whose offending byte range is returned); characters
outside ASCII pass through unchanged.  `acc` accumulates the current ASCII
run in reverse (structural recursion, so the kernel can evaluate it). -/
def pyUnquoteAux : List Char → List Char → Except (List Nat) (List Char)
  | [], acc => utf8Decode (unquoteToBytes acc.reverse)
  | c :: cs, acc =>
    if c.toNat < 0x80 then pyUnquoteAux cs (c :: acc)
    else
      match utf8Decode (unquoteToBytes acc.reverse) with
      | .error bad => .error bad
      | .ok dec =>
        match pyUnquoteAux cs [] with
        | .error bad => .error bad
        | .ok tail => .ok (dec ++ (c :: tail))

/-- See `pyUnquoteAux`. -/
def pyUnquote (s : List Char) : Except (List Nat) (List Char) :=
  pyUnquoteAux s []

/-- The exceptions that can escape the option-parsing block of lines 38–51:
a `UnicodeError` from the re-encode/decode of the query or from strict
unquoting (handled at lines 52–56), the `ValueError` that
`strict_parsing` raises for a field without `=` (handled at lines 59–60),
and a `QueryError` (handled at lines 57–58). -/
inductive OptErr
  | unicode (msg : String)
  | badField (field : String)
  | query (msg : String)
deriving DecidableEq, Repr

/-- One `name=value` field of `urllib.parse.parse_qsl(qs, keep_blank_values=
True, strict_parsing=True, errors="strict")`: a field without `=` raises
`ValueError`; otherwise both sides have `+` turned into spaces and are
strictly unquoted. -/
def parsePair (pair : List Char) : Except OptErr (String × String) :=
  match splitFirst '=' pair with
  | none => .error (.badField (String.mk pair))
  | some (nm, vl) =>
    match pyUnquote (nm.map fun c => if c = '+' then ' ' else c) with
    | .error bad => .error (.unicode (latin1OfBytes bad))
    | .ok name =>
      match pyUnquote (vl.map fun c => if c = '+' then ' ' else c) with
      | .error bad => .error (.unicode (latin1OfBytes bad))
      | .ok value => .ok (String.mk name, String.mk value)

/-- `urllib.parse.parse_qs(qs, keep_blank_values=True, strict_parsing=True,
errors="strict")` as the ordered list of `(name, value)` fields: the empty
query yields no fields; otherwise the query splits on `&` and every field
must parse. -/
def parseQs (qs : String) : Except OptErr (List (String × String)) :=
  if qs = "" then .ok []
  else (splitOnChar '&' qs.data).mapM parsePair

/-- `options.get(key, default)` over the `parse_qs` result: the values for
`key` in query order, or `default` when the key never occurs. -/
def qsGet (pairs : List (String × String)) (key : String)
    (dflt : List String) : List String :=
  match (pairs.filter fun p => p.1 = key).map Prod.snd with
  | [] => dflt
  | vs => vs

/-- The value of a CPython `float(string)` call: a finite literal is kept
exactly as `mant · 10^exp10` with `mant` an integer (canonicalized so that
`mant` is not divisible by 10, and `(0, 0)` for zero); `inf` and `nan` are
the special values.  CPython rounds a finite literal to the nearest
binary64; this embedding keeps the exact decimal value, which classifies
membership in `[0.5, 2]` identically unless a literal lands within one
rounding step of an endpoint (at least 17 significant digits); no theorem
below uses such a literal. -/
inductive PyFloat
  | num (mant : Int) (exp10 : Int)
  | inf (neg : Bool)
  | nan
deriving DecidableEq, Repr

/-- Strip factors of 10 from `mant` into the exponent (fuel-bounded
structural recursion; the fuel dominates the literal's digit count, so
canonicalization always completes). -/
def canonDec : Nat → Int → Int → Int × Int
  | 0, m, e => (m, e)
  | fuel + 1, m, e =>
    if m ≠ 0 ∧ m % 10 = 0 then canonDec fuel (m / 10) (e + 1) else (m, e)

/-- The canonical finite float value `m · 10^e`. -/
def mkPyNum (m e : Int) : PyFloat :=
  if m = 0 then .num 0 0
  else
    let c := canonDec 5000 m e
    .num c.1 c.2

/-- ASCII-only lowering, as CPython's float parser applies to `inf`, etc. -/
def asciiLower (c : Char) : Char :=
  if 'A' ≤ c ∧ c ≤ 'Z' then Char.ofNat (c.toNat + 32) else c

/-- An ASCII decimal digit. -/
def isDigitAscii (c : Char) : Bool := '0' ≤ c ∧ c ≤ '9'

/-- A digit run as CPython's float parser accepts it: nonempty, digits with
single underscores strictly between digits.  Returns its value and its
number of digits. -/
def digitsVal (cs : List Char) : Option (Nat × Nat) :=
  if cs ≠ [] ∧ cs.headD '0' ≠ '_' ∧ cs.getLastD '0' ≠ '_' ∧
      (cs.all fun c => isDigitAscii c ∨ c = '_') ∧
      ((cs.zip cs.tail).all fun p => ¬(p.1 = '_' ∧ p.2 = '_')) then
    some (cs.foldl (fun acc c =>
            if c = '_' then acc else acc * 10 + (c.toNat - 48)) 0,
          (cs.filter isDigitAscii).length)
  else none

/-- CPython `float(string)` (line 48): strip Python whitespace, optional
sign, then `inf`/`infinity`/`nan` (case-insensitive) or a decimal literal
`digits [. digits] [e [sign] digits]` with at least one mantissa digit.
A literal too large for binary64 overflows to `inf` in CPython; here it
stays exact, which the range check of line 49 classifies identically. -/
def pyFloatParse (s : String) : Option PyFloat :=
  let cs := (((s.data.dropWhile (pySpace.contains ·)).reverse.dropWhile
    (pySpace.contains ·)).reverse).map asciiLower
  let signed : Bool × List Char :=
    match cs with
    | '+' :: rest => (false, rest)
    | '-' :: rest => (true, rest)
    | _ => (false, cs)
  let neg := signed.1
  let body := signed.2
  if body = "inf".data ∨ body = "infinity".data then some (.inf neg)
  else if body = "nan".data then some .nan
  else
    let mant := body.takeWhile (· ≠ 'e')
    let expPart := body.dropWhile (· ≠ 'e')
    let exp? : Option Int :=
      match expPart with
      | [] => some 0
      | _ :: ecs =>
        let esigned : Bool × List Char :=
          match ecs with
          | '+' :: rest => (false, rest)
          | '-' :: rest => (true, rest)
          | _ => (false, ecs)
        match digitsVal esigned.2 with
        | some (v, _) => some (if esigned.1 then -(v : Int) else (v : Int))
        | none => none
    let ipart := mant.takeWhile (· ≠ '.')
    let rest := mant.dropWhile (· ≠ '.')
    let mant? : Option (Nat × Nat) :=
      match rest with
      | [] =>
        match digitsVal ipart with
        | some (v, _) => some (v, 0)
        | none => none
      | _ :: fpart =>
        if fpart.any (· = '.') then none
        else
          match ipart, fpart with
          | [], [] => none
          | [], _ =>
            match digitsVal fpart with
            | some (fv, fd) => some (fv, fd)
            | none => none
          | _, [] =>
            match digitsVal ipart with
            | some (v, _) => some (v, 0)
            | none => none
          | _, _ =>
            match digitsVal ipart, digitsVal fpart with
            | some (v, _), some (fv, fd) => some (v * 10 ^ fd + fv, fd)
            | _, _ => none
    match mant?, exp? with
    | some (m, scale), some e =>
      some (mkPyNum (if neg then -(m : Int) else (m : Int)) (e - scale))
    | _, _ => none

/-- Line 49, `speed < 0.5 or speed > 2`, under IEEE comparison semantics:
both comparisons are false for NaN, so NaN passes the range check.  For a
finite value `m · 10^e`: `v < 1/2` iff `2·m·10^e < 1`, and `v > 2` iff
`m·10^e > 2`, with the power moved across when `e` is negative. -/
def speedOutOfRange : PyFloat → Bool
  | .num m e =>
    (if 0 ≤ e then 2 * m * (10 : Int) ^ e.toNat < 1
     else 2 * m < (10 : Int) ^ (-e).toNat) ||
    (if 0 ≤ e then 2 < m * (10 : Int) ^ e.toNat
     else 2 * (10 : Int) ^ (-e).toNat < m)
  | .inf _ => true
  | .nan => false

/-- `repr` of a CPython float as interpolated into the out-of-range message
of line 51, on the subdomain reached there: finite values of magnitude in
[1e-4, 1e16) whose exact decimal expansion is the shortest binary64
representation (all concrete literals below), with Python's mandatory
fractional digit; `inf` and `nan` as Python spells them.  (Python switches
to scientific notation outside that range, and renders negative zero as
`-0.0`; no theorem uses such a value.) -/
def pyFloatRepr : PyFloat → String
  | .inf neg => if neg then "-inf" else "inf"
  | .nan => "nan"
  | .num m e =>
    let sign := if m < 0 then "-" else ""
    let s := toString m.natAbs
    if 0 ≤ e then
      sign ++ s ++ String.mk (List.replicate e.toNat '0') ++ ".0"
    else
      let k := (-e).toNat
      if k < s.length then
        sign ++ String.mk (s.data.take (s.length - k)) ++ "." ++
          String.mk (s.data.drop (s.length - k))
      else
        sign ++ "0." ++ String.mk (List.replicate (k - s.length) '0') ++ s

/-- The exceptions escaping the first `try` block of `app` (lines 35–51):
`UnicodeError` → lines 52–56, `QueryError` → lines 57–58, `ValueError`
(route or strict query syntax) → lines 59–60. -/
inductive PipeErr
  | unicode (msg : String)
  | queryErr (msg : String)
  | valueErr
deriving DecidableEq, Repr

/-- The option block of lines 38–51: re-encode/decode and lowercase the
query, parse it strictly, then validate `voice` (default `male`, exactly
one value, in `{male, female}`) and `speed` (default `"1"`, exactly one
value, a float in `[0.5, 2]`). -/
def parseOptions (query : String) : Except PipeErr (String × PyFloat) := do
  let decoded ← match recodeLatin1Utf8 query with
    | .error msg => .error (PipeErr.unicode msg)
    | .ok s => .ok s
  let pairs ← match parseQs (pyLowerStr decoded) with
    | .error (.unicode msg) => .error (PipeErr.unicode msg)
    | .error (.badField _) => .error PipeErr.valueErr
    | .error (.query msg) => .error (PipeErr.queryErr msg)
    | .ok ps => .ok ps
  let voices := qsGet pairs "voice" ["male"]
  if voices.length ≠ 1 then
    .error (.queryErr ("Expected at most a single 'voice', received " ++
      toString voices.length ++ " values"))
  else
    let voice := voices.headD "male"
    if voice ≠ "male" ∧ voice ≠ "female" then
      .error (.queryErr ("The 'voice' query must be either 'male' or " ++
        "'female' (defaults to 'male'), received '" ++ voice ++ "'"))
    else
      let speeds := qsGet pairs "speed" ["1"]
      if speeds.length ≠ 1 then
        .error (.queryErr ("Expected at most a single 'speed', received " ++
          toString speeds.length ++ " values"))
      else
        let sv := speeds.headD "1"
        match pyFloatParse sv with
        | none =>
          .error (.queryErr ("The 'speed' query must be a decimal number " ++
            "between 0.5 and 2 (defaults to 1), received '" ++ sv ++ "'"))
        | some f =>
          if speedOutOfRange f then
            .error (.queryErr ("The 'speed' query must be a decimal number " ++
              "between 0.5 and 2 (defaults to 1), received '" ++
              pyFloatRepr f ++ "'"))
          else
            .ok (voice, f)

/-- `text.replace("+", " ")` (line 63). -/
def replacePlus (s : String) : String :=
  String.mk (s.data.map fun c => if c = '+' then ' ' else c)

/-- A response body.  A success (status 200) is represented by the data that
determines the audio bytes: the model handle, the interspersed sequences
and the speed handed to `infer` (lines 140–148).  A failure carries the
JSON `error` kind and optional `message` of lines 56–70. -/
inductive Body
  | audio (handle : Model) (seqs : Sequences) (speed : PyFloat)
  | err (error : String) (message : Option String)
deriving DecidableEq, Repr

/-- `language not in {"waitau", "hakka"}` (line 37). -/
def langOf (s : String) : Option Language :=
  if s = "waitau" then some .waitau
  else if s = "hakka" then some .hakka
  else none

/-- Line 36 and line 37: decode, lowercase, strip and split the path into
exactly `tts/{language}/{text}`; a wrong segment count, a function other
than `tts` or an unknown language raises `ValueError` (the route-not-found
case of lines 59–60), and a codec failure raises `UnicodeError`.  The whole
path check runs before the query is looked at, exactly as in the source. -/
def route (path : String) : Except PipeErr (Language × String) := do
  let decoded ← match recodeLatin1Utf8 path with
    | .error msg => Except.error (PipeErr.unicode msg)
    | .ok s => Except.ok s
  match splitOnChar '/' (stripSlashes (pyLowerStr decoded)).data with
  | [function, language, text] =>
    match langOf (String.mk language) with
    | none => .error .valueErr
    | some lang =>
      if String.mk function = "tts" then .ok (lang, String.mk text)
      else .error .valueErr
  | _ => .error .valueErr

/-- The `except` clauses of lines 52–60: `UnicodeError` → 500 with the
offending content, `QueryError` → 500 `Invalid option`, `ValueError` →
the generic 404. -/
def errResp : PipeErr → Nat × Body
  | .unicode msg =>
    (500, .err "Error while decoding URI: invalid characters" (some msg))
  | .queryErr msg => (500, .err "Invalid option" (some msg))
  | .valueErr => (404, .err "Page not found" none)

/-- `app` (lines 34–70): route the path, validate the query options, then
run `generate_audio` on the text with `+` replaced by spaces (line 63),
mapping every failure to its status and structured body (lines 52–70).
The model cache is threaded explicitly (the source mutates the
module-global `models`).  The `except Exception` fallback of lines 69–70
is unreachable here: all other failure modes of the body are covered by
the typed errors. -/
def app (table : SymbolTable) (models : Models) (path query : String) :
    Models × (Nat × Body) :=
  match route path with
  | .error e => (models, errResp e)
  | .ok (lang, text) =>
    match parseOptions query with
    | .error e => (models, errResp e)
    | .ok (voice, speed) =>
      let out := generate_audio table models lang voice (replacePlus text)
      match out.2 with
      | .ok (handle, seqs) => (out.1, (200, .audio handle seqs speed))
      | .error (.tone msg) => (out.1, (500, .err "Invalid syllable" (some msg)))
      | .error (.symbol key) =>
        (out.1, (500, .err "Unrecognized symbol" (some ("'" ++ key ++ "'"))))

/-! ### An interleaving model of the fetch-or-load region

Lines 78–80 perform an unguarded check-then-load on the shared `models`
dict: the membership test `name not in models` and the load-plus-assignment
`models[name] = load_model(...)` are separate steps, with the load running
in between.  Under CPython's GIL each individual dict operation is atomic,
but a context switch may occur during the (slow) `load_model` call, so two
request threads may interleave arbitrarily between the two steps. -/

/-- Program counter of one request thread inside lines 78–80: `start` —
about to evaluate `name not in models`; `missed` — observed a miss, about
to call `load_model` and assign; `done` — past the region. -/
inductive TPc
  | start
  | missed
  | done
deriving DecidableEq, Repr

/-- Python dict assignment `models[name] = m`: overwrite in place if the
key exists, else append. -/
def dictInsert (models : Models) (name : String) (m : Model) : Models :=
  if (models.lookup name).isSome then
    models.map fun p => if p.1 = name then (name, m) else p
  else models ++ [(name, m)]

/-- Shared state of two request threads racing through lines 78–80 for the
same key: the cache, the number of `load_model` calls performed so far,
and the two program counters. -/
structure RaceState where
  models : Models
  loads : Nat
  pc0 : TPc
  pc1 : TPc
deriving DecidableEq, Repr

/-- One atomic step of one thread through lines 78–80. -/
def threadStep (name : String) (language : Language) (pc : TPc)
    (models : Models) (loads : Nat) : TPc × Models × Nat :=
  match pc with
  | .start =>
    if (models.lookup name).isSome then (.done, models, loads)
    else (.missed, models, loads)
  | .missed =>
    (.done, dictInsert models name (load_model name language), loads + 1)
  | .done => (.done, models, loads)

/-- Run a schedule over the two threads (`false` schedules thread 0,
`true` schedules thread 1). -/
def runRace (name : String) (language : Language) :
    List Bool → RaceState → RaceState
  | [], s => s
  | b :: rest, s =>
    if b then
      let st := threadStep name language s.pc1 s.models s.loads
      runRace name language rest
        { models := st.2.1, loads := st.2.2, pc0 := s.pc0, pc1 := st.1 }
    else
      let st := threadStep name language s.pc0 s.models s.loads
      runRace name language rest
        { models := st.2.1, loads := st.2.2, pc0 := st.1, pc1 := s.pc1 }

/-! ### Spec-side characterizations and auxiliary definitions -/

/-- The scan of §4.1 step 3, worded as the spec does: walk the syllable
left-to-right and return the index of the first character in the vowel
set, if any. -/
def firstVowelIdx : List Char → Option Nat
  | [] => none
  | c :: cs => if isVowel c then some 0 else (firstVowelIdx cs).map (· + 1)

/-- `vowelIdxs` with the enumeration starting at `n`, for induction. -/
def vowelIdxsFrom (n : Nat) (cs : List Char) : List Nat :=
  ((List.enumFrom n cs).filter fun p => isVowel p.2).map Prod.fst

/-- A cache entry the running program can produce: one of the four valid
keys, mapped to the handle `load_model` deterministically builds for it. -/
def validEntry (p : String × Model) : Prop :=
  ∃ lang : Language, ∃ voice : String,
    (voice = "male" ∨ voice = "female") ∧
    p = (modelKey lang voice, load_model (modelKey lang voice) lang)

/-- Every entry of the cache is one the program can produce; holds for the
initial empty cache and is preserved by every request. -/
def WFCache (models : Models) : Prop := ∀ p ∈ models, validEntry p

/-- The everywhere-undefined symbol table, for closed evaluations whose
result does not depend on table contents (error paths). -/
def emptyTable : SymbolTable := fun _ => none

/-- A small concrete symbol table covering the phones appearing in the
closed success-path evaluations below. -/
def sampleTable : SymbolTable := fun s =>
  (([("_", 1), ("g", 2), ("o", 3), ("h", 4), ("", 5), ("#", 6), ("i", 7),
     ("y", 8), ("k", 9), ("au", 10), ("ng", 11), ("m", 12)] :
    List (String × Nat)).lookup s)

/-- How many further `load_model` calls a thread at `pc` can still make. -/
def pendLoads : TPc → Nat
  | .start => 1
  | .missed => 1
  | .done => 0

/-! ### Lemmas on the vowel scan -/

theorem vowelIdxs_eq_from (cs : List Char) : vowelIdxs cs = vowelIdxsFrom 0 cs :=
  rfl

theorem vowelIdxsFrom_cons (n : Nat) (c : Char) (cs : List Char) :
    vowelIdxsFrom n (c :: cs) =
      if isVowel c then n :: vowelIdxsFrom (n + 1) cs
      else vowelIdxsFrom (n + 1) cs := by
  by_cases h : isVowel c <;>
    simp [vowelIdxsFrom, List.enumFrom_cons, List.filter_cons, h]

/-- The generator of line 93 yields the first-vowel index followed by the
vowel indices of the suffix past it. -/
theorem vowelIdxsFrom_eq (n : Nat) (cs : List Char) :
    vowelIdxsFrom n cs =
      match firstVowelIdx cs with
      | none => []
      | some i => (n + i) :: vowelIdxsFrom (n + i + 1) (cs.drop (i + 1)) := by
  induction cs generalizing n with
  | nil => rfl
  | cons c cs ih =>
    rw [vowelIdxsFrom_cons]
    by_cases h : isVowel c
    · simp [firstVowelIdx, h]
    · rw [ih (n + 1)]
      simp only [firstVowelIdx, h, if_false, Bool.false_eq_true]
      cases hf : firstVowelIdx cs with
      | none => simp
      | some i =>
        simp only [Option.map_some']
        have e1 : n + (i + 1) = n + 1 + i := by omega
        rw [e1, List.drop_succ_cons]

theorem vowelIdxs_headD (cs : List Char) :
    (vowelIdxs cs).headD 0 = (firstVowelIdx cs).getD 0 := by
  rw [vowelIdxs_eq_from, vowelIdxsFrom_eq]
  cases firstVowelIdx cs <;> simp

theorem vowelIdxs_getD_one (cs : List Char) (i d : Nat)
    (h : firstVowelIdx cs = some i) :
    (vowelIdxs cs).getD 1 d =
      match firstVowelIdx (cs.drop (i + 1)) with
      | none => d
      | some j => i + 1 + j := by
  rw [vowelIdxs_eq_from, vowelIdxsFrom_eq, h]
  simp only [Nat.zero_add]
  rw [show ((i :: vowelIdxsFrom (i + 1) (cs.drop (i + 1))).getD 1 d =
      (vowelIdxsFrom (i + 1) (cs.drop (i + 1))).getD 0 d) from rfl]
  rw [vowelIdxsFrom_eq]
  cases hf : firstVowelIdx (cs.drop (i + 1)) with
  | none => simp
  | some j => simp [Nat.add_assoc]

theorem firstVowelIdx_none {cs : List Char} (h : firstVowelIdx cs = none) :
    ∀ c ∈ cs, isVowel c = false := by
  induction cs with
  | nil => simp
  | cons c cs ih =>
    by_cases hv : isVowel c
    · simp [firstVowelIdx, hv] at h
    · simp only [firstVowelIdx, hv, if_false, Bool.false_eq_true,
        Option.map_eq_none'] at h
      intro x hx
      rcases List.mem_cons.mp hx with rfl | hx
      · simpa using hv
      · exact ih h x hx

theorem firstVowelIdx_some {cs : List Char} {i : Nat}
    (h : firstVowelIdx cs = some i) :
    i < cs.length ∧ isVowel (cs.getD i ' ') = true ∧
      ∀ j < i, isVowel (cs.getD j ' ') = false := by
  induction cs generalizing i with
  | nil => simp [firstVowelIdx] at h
  | cons c cs ih =>
    by_cases hv : isVowel c
    · simp only [firstVowelIdx, hv, if_true, Option.some.injEq] at h
      subst h
      exact ⟨by simp, by simpa using hv, by omega⟩
    · simp only [firstVowelIdx, hv, if_false, Bool.false_eq_true,
        Option.map_eq_some'] at h
      obtain ⟨i', hi', rfl⟩ := h
      obtain ⟨h1, h2, h3⟩ := ih hi'
      refine ⟨by simpa using h1, by simpa using h2, ?_⟩
      intro j hj
      cases j with
      | zero => simpa using hv
      | succ j' =>
        rw [List.getD_cons_succ]
        exact h3 j' (by omega)

/-! ### Lemmas on interspersion and sequence lengths -/

theorem intersperse_nil {α : Type} (item : α) : intersperse [] item = [item] :=
  rfl

theorem intersperse_cons {α : Type} (x : α) (xs : List α) (item : α) :
    intersperse (x :: xs) item = item :: x :: intersperse xs item :=
  rfl

theorem intersperse_length {α : Type} (lst : List α) (item : α) :
    (intersperse lst item).length = 2 * lst.length + 1 := by
  induction lst with
  | nil => rfl
  | cons x xs ih =>
    rw [intersperse_cons]
    simp only [List.length_cons, ih]
    omega

theorem intersperse_getD_even {α : Type} (lst : List α) (item : α) (k : Nat)
    (d : α) (hk : k ≤ lst.length) :
    (intersperse lst item).getD (2 * k) d = item := by
  induction lst generalizing k with
  | nil =>
    have hz : k = 0 := by simpa using hk
    subst hz
    rfl
  | cons x xs ih =>
    cases k with
    | zero => rfl
    | succ k' =>
      rw [intersperse_cons, show 2 * (k' + 1) = 2 * k' + 1 + 1 by omega]
      rw [List.getD_cons_succ, List.getD_cons_succ]
      exact ih k' (by simpa using hk)

theorem intersperse_getD_odd {α : Type} (lst : List α) (item : α) (k : Nat)
    (d : α) (hk : k < lst.length) :
    (intersperse lst item).getD (2 * k + 1) d = lst.getD k d := by
  induction lst generalizing k with
  | nil => simp at hk
  | cons x xs ih =>
    cases k with
    | zero => rfl
    | succ k' =>
      rw [intersperse_cons, show 2 * (k' + 1) + 1 = 2 * k' + 1 + 1 + 1 by omega]
      rw [List.getD_cons_succ, List.getD_cons_succ, List.getD_cons_succ]
      exact ih k' (by simpa using hk)

theorem lookupSymbols_length (table : SymbolTable) (phones : List String)
    (ids : List Nat) (h : lookupSymbols table phones = .ok ids) :
    ids.length = phones.length := by
  induction phones generalizing ids with
  | nil =>
    simp only [lookupSymbols] at h
    cases h
    rfl
  | cons s rest ih =>
    simp only [lookupSymbols] at h
    cases ht : table s with
    | none => rw [ht] at h; cases h
    | some i =>
      rw [ht] at h
      cases hr : lookupSymbols table rest with
      | error e => rw [hr] at h; cases h
      | ok is =>
        rw [hr] at h
        cases h
        simp [ih is hr]

/-! ### Lemmas on the per-syllable encoder -/

/-- Each loop iteration contributes equally many phones and tones, and its
`word2ph` entry is that common count: 1, 2 or 3 by shape and language. -/
theorem encodeSyllable_counts (language : Language) (syl : List Char)
    (p : List String) (t : List Nat) (w : Nat)
    (h : encodeSyllable language syl = .ok (p, t, w)) :
    p.length = w ∧ t.length = w ∧
      (syl.length = 1 → w = 1) ∧
      (syl.length ≠ 1 → (language = .waitau → w = 2) ∧
        (language = .hakka → w = 3)) := by
  unfold encodeSyllable at h
  by_cases h1 : syl.length = 1
  · rw [if_pos h1] at h
    cases h
    exact ⟨rfl, rfl, fun _ => rfl, fun hc => absurd h1 hc⟩
  · rw [if_neg h1] at h
    cases ht : toneOfChar (syl.getLastD ' ') with
    | none => rw [ht] at h; cases h
    | some tone =>
      rw [ht] at h
      cases language with
      | waitau =>
        cases h
        exact ⟨rfl, rfl, fun hc => absurd hc h1,
          fun _ => ⟨fun _ => rfl, fun hlh => nomatch hlh⟩⟩
      | hakka =>
        cases h
        exact ⟨rfl, rfl, fun hc => absurd hc h1,
          fun _ => ⟨fun hlh => absurd hlh (by decide), fun _ => rfl⟩⟩

/-- The loop keeps the three accumulators parallel: phones and tones have
equal length and the `word2ph` entries sum to it. -/
theorem encodeSyllables_parallel (language : Language)
    (syls : List (List Char)) (p : List String) (t : List Nat)
    (w : List Nat) (h : encodeSyllables language syls = .ok (p, t, w)) :
    p.length = t.length ∧ w.sum = p.length := by
  induction syls generalizing p t w with
  | nil =>
    simp only [encodeSyllables] at h
    cases h
    simp
  | cons s rest ih =>
    simp only [encodeSyllables] at h
    cases h1 : encodeSyllable language s with
    | error e => rw [h1] at h; cases h
    | ok out =>
      obtain ⟨p1, t1, w1⟩ := out
      rw [h1] at h
      cases h2 : encodeSyllables language rest with
      | error e => rw [h2] at h; cases h
      | ok out2 =>
        obtain ⟨ps, ts, ws⟩ := out2
        rw [h2] at h
        cases h
        obtain ⟨hp, ht, -, -⟩ := encodeSyllable_counts language s p1 t1 w1 h1
        obtain ⟨ihp, ihs⟩ := ih ps ts ws h2
        constructor
        · simp [hp, ht, ihp]
        · simp [List.sum_cons, ihs, hp]

/-- `encode` keeps the sequences parallel, pads included. -/
theorem encode_parallel (language : Language) (text : String)
    (p : List String) (t : List Nat) (w : List Nat)
    (h : encode language text = .ok (p, t, w)) :
    p.length = t.length ∧ w.sum = p.length := by
  simp only [encode] at h
  cases h1 : encodeSyllables language ((pySplit text).map String.data) with
  | error e => rw [h1] at h; cases h
  | ok out =>
    obtain ⟨ps, ts, ws⟩ := out
    rw [h1] at h
    cases h
    obtain ⟨hp, hs⟩ := encodeSyllables_parallel language _ ps ts ws h1
    constructor
    · simp [hp]
    · simp [List.sum_cons, List.sum_append, hs, hp]
      omega

/-! ### Lemmas on association-list lookup -/

theorem lookup_append_left {l₁ l₂ : Models} {k : String} {v : Model}
    (h : l₁.lookup k = some v) : (l₁ ++ l₂).lookup k = some v := by
  induction l₁ with
  | nil => simp [List.lookup] at h
  | cons a l ih =>
    simp only [List.lookup, List.cons_append] at h ⊢
    cases hk : (k == a.1) <;> rw [hk] at h
    · exact ih h
    · exact h

theorem lookup_append_none {l₁ l₂ : Models} {k : String}
    (h : l₁.lookup k = none) : (l₁ ++ l₂).lookup k = l₂.lookup k := by
  induction l₁ with
  | nil => simp
  | cons a l ih =>
    simp only [List.lookup, List.cons_append] at h ⊢
    cases hk : (k == a.1) <;> rw [hk] at h
    · exact ih h
    · exact absurd h (by simp)

theorem lookup_mem {l : Models} {k : String} {v : Model}
    (h : l.lookup k = some v) : (k, v) ∈ l := by
  induction l with
  | nil => simp [List.lookup] at h
  | cons a l ih =>
    simp only [List.lookup] at h
    cases hk : (k == a.1) <;> rw [hk] at h
    · exact List.mem_cons_of_mem _ (ih h)
    · have hv : a.2 = v := by simpa using h
      have hka : k = a.1 := by simpa using hk
      subst hka hv
      exact List.mem_cons_self _ _

/-! ### Lemmas on the model cache -/

theorem getOrLoad_hit {models : Models} {language : Language}
    {voice : String} {m : Model}
    (h : models.lookup (modelKey language voice) = some m) :
    getOrLoad models language voice = (models, m) := by
  simp only [getOrLoad, h]

theorem getOrLoad_miss {models : Models} {language : Language}
    {voice : String}
    (h : models.lookup (modelKey language voice) = none) :
    getOrLoad models language voice =
      (models ++ [(modelKey language voice,
          load_model (modelKey language voice) language)],
        load_model (modelKey language voice) language) := by
  simp only [getOrLoad, h]

theorem lookup_single_self (k : String) (v : Model) :
    (([(k, v)] : Models).lookup k) = some v := by
  simp [List.lookup]

theorem getOrLoad_idem (models : Models) (language : Language)
    (voice : String) :
    getOrLoad (getOrLoad models language voice).1 language voice =
      getOrLoad models language voice := by
  cases h : models.lookup (modelKey language voice) with
  | some m =>
    rw [getOrLoad_hit h]
    exact getOrLoad_hit h
  | none =>
    rw [getOrLoad_miss h]
    exact getOrLoad_hit (by rw [lookup_append_none h]; exact lookup_single_self _ _)

theorem getOrLoad_preserves {models : Models} {language : Language}
    {voice : String} {k : String} {v : Model}
    (h : models.lookup k = some v) :
    (getOrLoad models language voice).1.lookup k = some v := by
  cases hg : models.lookup (modelKey language voice) with
  | some m => rw [getOrLoad_hit hg]; exact h
  | none => rw [getOrLoad_miss hg]; exact lookup_append_left h

theorem lookup_map_overwrite {ms : Models} {name : String} (m : Model)
    (h : (ms.lookup name).isSome) :
    (ms.map fun p => if p.1 = name then (name, m) else p).lookup name =
      some m := by
  induction ms with
  | nil => simp [List.lookup] at h
  | cons a l ih =>
    simp only [List.lookup] at h
    by_cases ha : a.1 = name
    · simp only [List.map_cons]
      rw [if_pos ha]
      simp [List.lookup]
    · have hba : (name == a.1) = false := by
        simp only [beq_eq_false_iff_ne, ne_eq]
        exact fun hc => ha hc.symm
      rw [hba] at h
      simp only [List.map_cons]
      rw [if_neg ha]
      simp only [List.lookup, hba]
      exact ih h

theorem dictInsert_lookup_self (ms : Models) (name : String) (m : Model) :
    (dictInsert ms name m).lookup name = some m := by
  unfold dictInsert
  by_cases h : (ms.lookup name).isSome
  · rw [if_pos h]
    exact lookup_map_overwrite m h
  · rw [if_neg h]
    have hn : ms.lookup name = none := by
      cases hh : ms.lookup name
      · rfl
      · rw [hh] at h; simp at h
    rw [lookup_append_none hn]
    exact lookup_single_self _ _

theorem modelKey_inj {l1 l2 : Language} {v1 v2 : String}
    (h : modelKey l1 v1 = modelKey l2 v2)
    (h1 : v1 = "male" ∨ v1 = "female") (h2 : v2 = "male" ∨ v2 = "female") :
    l1 = l2 ∧ v1 = v2 := by
  cases l1 <;> cases l2 <;> rcases h1 with rfl | rfl <;> rcases h2 with rfl | rfl <;>
    first
      | exact ⟨rfl, rfl⟩
      | exact absurd h (by decide)

theorem WF_lookup {ms : Models} (hWF : WFCache ms) {lang : Language}
    {voice : String} {m : Model}
    (hv : voice = "male" ∨ voice = "female")
    (h : ms.lookup (modelKey lang voice) = some m) :
    m = load_model (modelKey lang voice) lang := by
  obtain ⟨lang', voice', hv', hp⟩ := hWF _ (lookup_mem h)
  have hk : modelKey lang voice = modelKey lang' voice' :=
    congrArg Prod.fst hp
  have hm : m = load_model (modelKey lang' voice') lang' :=
    congrArg Prod.snd hp
  obtain ⟨hl, hvv⟩ := modelKey_inj hk hv hv'
  subst hl
  subst hvv
  exact hm

theorem generate_audio_models (table : SymbolTable) (ms : Models)
    (lang : Language) (voice : String) (text : String) :
    (generate_audio table ms lang voice text).1 =
      (getOrLoad ms lang voice).1 := by
  rcases hg : getOrLoad ms lang voice with ⟨a, b⟩
  simp [generate_audio, hg]

theorem generate_audio_snd_WF (table : SymbolTable) {ms : Models}
    (hWF : WFCache ms) (lang : Language) {voice : String}
    (hv : voice = "male" ∨ voice = "female") (text : String) :
    (generate_audio table ms lang voice text).2 =
      (buildSequences table lang text).map
        (fun seqs => (load_model (modelKey lang voice) lang, seqs)) := by
  cases hg : ms.lookup (modelKey lang voice) with
  | none => simp [generate_audio, getOrLoad_miss hg]
  | some m =>
    have hm := WF_lookup hWF hv hg
    simp [generate_audio, getOrLoad_hit hg, hm]

/-! ### Lemmas on option parsing and the pipeline -/

/-- A successfully parsed option pair always carries a validated voice and
an in-range speed: the checks of lines 40–51 are exhaustive. -/
theorem parseOptions_ok_valid {q : String} {voice : String} {speed : PyFloat}
    (h : parseOptions q = .ok (voice, speed)) :
    (voice = "male" ∨ voice = "female") ∧ speedOutOfRange speed = false := by
  unfold parseOptions at h
  cases hr : recodeLatin1Utf8 q with
  | error msg => rw [hr] at h; simp [Bind.bind, Except.bind] at h
  | ok s =>
    rw [hr] at h
    simp only [Bind.bind, Except.bind] at h
    cases hp : parseQs (pyLowerStr s) with
    | error e =>
      rw [hp] at h
      cases e <;> simp at h
    | ok pairs =>
      rw [hp] at h
      split at h
      · rename_i heq; exact absurd heq (by simp)
      · rename_i heq; exact absurd heq (by simp)
      · rename_i heq; exact absurd heq (by simp)
      · rename_i ps heq
        cases heq
        split at h
        · simp at h
        · split at h
          · simp at h
          · rename_i hvne
            split at h
            · simp at h
            · split at h
              · simp at h
              · rename_i f hparse
                split at h
                · simp at h
                · rename_i hrange
                  cases h
                  refine ⟨?_, ?_⟩
                  · by_cases hm :
                        (qsGet pairs "voice" ["male"]).headD "male" = "male"
                    · exact Or.inl hm
                    · right
                      by_cases hf :
                          (qsGet pairs "voice" ["male"]).headD "male" = "female"
                      · exact hf
                      · exact absurd ⟨hm, hf⟩ hvne
                  · simpa using hrange

theorem app_route_err {table : SymbolTable} {ms : Models} {p q : String}
    {e : PipeErr} (hr : route p = .error e) :
    app table ms p q = (ms, errResp e) := by
  unfold app
  rw [hr]

theorem app_opt_err {table : SymbolTable} {ms : Models} {p q : String}
    {lang : Language} {text : String} {e : PipeErr}
    (hr : route p = .ok (lang, text)) (ho : parseOptions q = .error e) :
    app table ms p q = (ms, errResp e) := by
  unfold app
  rw [hr, ho]

theorem app_ok_eq {table : SymbolTable} {ms : Models} {p q : String}
    {lang : Language} {text : String} {voice : String} {speed : PyFloat}
    (hr : route p = .ok (lang, text))
    (ho : parseOptions q = .ok (voice, speed)) :
    app table ms p q =
      ((generate_audio table ms lang voice (replacePlus text)).1,
        match (generate_audio table ms lang voice (replacePlus text)).2 with
        | .ok (handle, seqs) => (200, Body.audio handle seqs speed)
        | .error (.tone msg) => (500, Body.err "Invalid syllable" (some msg))
        | .error (.symbol key) =>
          (500, Body.err "Unrecognized symbol" (some ("'" ++ key ++ "'")))) := by
  unfold app
  rw [hr, ho]
  dsimp only []
  cases (generate_audio table ms lang voice (replacePlus text)).2 with
  | ok v => obtain ⟨handle, seqs⟩ := v; rfl
  | error e => cases e <;> rfl

/-- The cache after a request: unchanged, or extended by exactly the missing
entry for the request's validated (language, voice) key. -/
theorem app_models_shape (table : SymbolTable) (ms : Models) (p q : String) :
    (app table ms p q).1 = ms ∨
      ∃ lang : Language, ∃ voice : String,
        (voice = "male" ∨ voice = "female") ∧
        ms.lookup (modelKey lang voice) = none ∧
        (app table ms p q).1 =
          ms ++ [(modelKey lang voice,
            load_model (modelKey lang voice) lang)] := by
  cases hr : route p with
  | error e => left; rw [app_route_err hr]
  | ok rt =>
    obtain ⟨lang, text⟩ := rt
    cases ho : parseOptions q with
    | error e => left; rw [app_opt_err hr ho]
    | ok vs =>
      obtain ⟨voice, speed⟩ := vs
      have hv := (parseOptions_ok_valid ho).1
      rw [app_ok_eq hr ho]
      have hm := generate_audio_models table ms lang voice (replacePlus text)
      cases hg : ms.lookup (modelKey lang voice) with
      | some m =>
        left
        simp only [hm, getOrLoad_hit hg]
      | none =>
        right
        exact ⟨lang, voice, hv, hg, by simp only [hm, getOrLoad_miss hg]⟩

/-- Well-formedness of the cache is an invariant of the pipeline. -/
theorem app_preserves_WF {table : SymbolTable} {ms : Models} {p q : String}
    (h : WFCache ms) : WFCache (app table ms p q).1 := by
  rcases app_models_shape table ms p q with he | ⟨lang, voice, hv, -, he⟩
  · rw [he]; exact h
  · rw [he]
    intro x hx
    rcases List.mem_append.mp hx with hx | hx
    · exact h x hx
    · rw [List.mem_singleton.mp hx]
      exact ⟨lang, voice, hv, rfl⟩

/-- The response (status and body) depends on the cache only through the
handle for the request's key, which well-formedness pins to the value
`load_model` would produce: any two well-formed caches give identical
responses. -/
theorem app_resp_WF {table : SymbolTable} {ms₁ ms₂ : Models} (p q : String)
    (h1 : WFCache ms₁) (h2 : WFCache ms₂) :
    (app table ms₁ p q).2 = (app table ms₂ p q).2 := by
  cases hr : route p with
  | error e => rw [app_route_err hr, app_route_err hr]
  | ok rt =>
    obtain ⟨lang, text⟩ := rt
    cases ho : parseOptions q with
    | error e => rw [app_opt_err hr ho, app_opt_err hr ho]
    | ok vs =>
      obtain ⟨voice, speed⟩ := vs
      have hv := (parseOptions_ok_valid ho).1
      rw [app_ok_eq hr ho, app_ok_eq hr ho]
      have e1 := generate_audio_snd_WF table h1 lang hv (replacePlus text)
      have e2 := generate_audio_snd_WF table h2 lang hv (replacePlus text)
      simp only [e1, e2]

/-! ### Lemmas on the interleaving model -/

theorem threadStep_inv (name : String) (lang : Language) (pc other : TPc)
    (ms : Models) (loads : Nat)
    (h1 : ms.lookup name = none ∨
      ms.lookup name = some (load_model name lang))
    (h2 : ms.lookup name = some (load_model name lang) → 1 ≤ loads)
    (h3 : pc = .done → ms.lookup name = some (load_model name lang))
    (h4 : other = .done → ms.lookup name = some (load_model name lang))
    (h5 : loads + pendLoads pc + pendLoads other ≤ 2) :
    ((threadStep name lang pc ms loads).2.1.lookup name = none ∨
      (threadStep name lang pc ms loads).2.1.lookup name =
        some (load_model name lang)) ∧
    ((threadStep name lang pc ms loads).2.1.lookup name =
        some (load_model name lang) →
      1 ≤ (threadStep name lang pc ms loads).2.2) ∧
    ((threadStep name lang pc ms loads).1 = .done →
      (threadStep name lang pc ms loads).2.1.lookup name =
        some (load_model name lang)) ∧
    (other = .done →
      (threadStep name lang pc ms loads).2.1.lookup name =
        some (load_model name lang)) ∧
    (threadStep name lang pc ms loads).2.2 +
      pendLoads (threadStep name lang pc ms loads).1 + pendLoads other ≤ 2 := by
  cases pc with
  | start =>
    cases hlk : ms.lookup name with
    | some m =>
      have hsome : ms.lookup name = some (load_model name lang) := by
        rcases h1 with h | h
        · rw [h] at hlk; cases hlk
        · exact h
      simp only [threadStep, hsome, Option.isSome_some, if_true]
      refine ⟨Or.inr trivial, fun _ => h2 hsome, fun _ => trivial,
        fun _ => trivial, ?_⟩
      simp only [pendLoads] at h5 ⊢
      omega
    | none =>
      simp only [threadStep, hlk, Option.isSome_none, Bool.false_eq_true,
        if_false]
      refine ⟨Or.inl trivial, fun hc => absurd hc (by simp),
        fun hc => absurd hc (by decide), fun ho => hlk ▸ h4 ho, ?_⟩
      simp only [pendLoads] at h5 ⊢
      omega
  | missed =>
    simp only [threadStep]
    have hins := dictInsert_lookup_self ms name (load_model name lang)
    refine ⟨Or.inr hins, fun _ => by omega, fun _ => hins, fun _ => hins, ?_⟩
    simp only [pendLoads] at h5 ⊢
    omega
  | done =>
    simp only [threadStep]
    exact ⟨h1, h2, fun _ => h3 rfl, h4, h5⟩

theorem runRace_inv (name : String) (lang : Language) (sched : List Bool)
    (s : RaceState)
    (h1 : s.models.lookup name = none ∨
      s.models.lookup name = some (load_model name lang))
    (h2 : s.models.lookup name = some (load_model name lang) → 1 ≤ s.loads)
    (h3 : s.pc0 = .done →
      s.models.lookup name = some (load_model name lang))
    (h4 : s.pc1 = .done →
      s.models.lookup name = some (load_model name lang))
    (h5 : s.loads + pendLoads s.pc0 + pendLoads s.pc1 ≤ 2) :
    ((runRace name lang sched s).models.lookup name = none ∨
      (runRace name lang sched s).models.lookup name =
        some (load_model name lang)) ∧
    ((runRace name lang sched s).models.lookup name =
        some (load_model name lang) → 1 ≤ (runRace name lang sched s).loads) ∧
    ((runRace name lang sched s).pc0 = .done →
      (runRace name lang sched s).models.lookup name =
        some (load_model name lang)) ∧
    ((runRace name lang sched s).pc1 = .done →
      (runRace name lang sched s).models.lookup name =
        some (load_model name lang)) ∧
    (runRace name lang sched s).loads +
      pendLoads (runRace name lang sched s).pc0 +
      pendLoads (runRace name lang sched s).pc1 ≤ 2 := by
  induction sched generalizing s with
  | nil => exact ⟨h1, h2, h3, h4, h5⟩
  | cons b rest ih =>
    cases b
    · obtain ⟨g1, g2, g3, g4, g5⟩ :=
        threadStep_inv name lang s.pc0 s.pc1 s.models s.loads h1 h2 h3 h4 h5
      simp only [runRace, Bool.false_eq_true, if_false]
      exact ih _ g1 g2 g3 g4 g5
    · obtain ⟨g1, g2, g3, g4, g5⟩ :=
        threadStep_inv name lang s.pc1 s.pc0 s.models s.loads h1 h2 h4 h3
          (by simp only [pendLoads] at h5 ⊢; omega)
      simp only [runRace, if_true]
      refine ih _ g1 g2 g4 g3 ?_
      simp only [pendLoads] at g5 ⊢
      omega

/-! ### Claim theorems -/

/-- Claim C8: for every single-character syllable token of the input text,
in both languages, the encoder emits exactly that character verbatim as one
phone with tone 0 and word-count 1, without attempting tone-digit parsing
or initial/final decomposition. -/
theorem C8_single_char_verbatim (language : Language) (text : String)
    (syl : String) (hmem : syl ∈ pySplit text) (hlen : syl.length = 1) :
    encodeSyllable language syl.data = .ok ([syl], [0], 1) := by
  obtain ⟨cs⟩ := syl
  have hl : cs.length = 1 := hlen
  simp [encodeSyllable, hl]

/-- Witness for C8: the single-character token `"a"` of the text `"a bc"`. -/
theorem C8_single_char_verbatim_witness :
    (("a" : String) ∈ pySplit "a bc") ∧ ("a" : String).length = 1 ∧
      encodeSyllable .waitau ("a" : String).data = .ok (["a"], [0], 1) :=
  ⟨by decide, by decide,
    C8_single_char_verbatim .waitau "a bc" "a" (by decide) (by decide)⟩

/-- Claim C10: for every input text the encoder accepts, the three produced
sequences stay parallel before interspersion — the phone list and tone list
have equal length and the word-count list sums to that common length — and
each per-syllable contribution adds equally many phones, tones and counted
units: 1 for single-character syllables (and each boundary pad), 2 for
waitau, 3 for hakka. -/
theorem C10_parallel_invariant :
    (∀ (language : Language) (text : String) (phones : List String)
        (tones : List Nat) (word2ph : List Nat),
      encode language text = .ok (phones, tones, word2ph) →
      phones.length = tones.length ∧ word2ph.sum = phones.length) ∧
    (∀ (language : Language) (syl : List Char) (p : List String)
        (t : List Nat) (w : Nat),
      encodeSyllable language syl = .ok (p, t, w) →
      p.length = t.length ∧ t.length = w ∧
        (syl.length = 1 → w = 1) ∧
        (syl.length ≠ 1 → (language = .waitau → w = 2) ∧
          (language = .hakka → w = 3))) := by
  refine ⟨encode_parallel, ?_⟩
  intro language syl p t w h
  obtain ⟨hp, ht, h1, h2⟩ := encodeSyllable_counts language syl p t w h
  exact ⟨hp.trans ht.symm, ht, h1, h2⟩

/-- Witness for C10 at waitau, text `"go2 x"`. -/
theorem C10_parallel_invariant_witness :
    encode .waitau "go2 x" =
      .ok (["_", "g", "o", "x", "_"], [0, 2, 2, 0, 0], [1, 2, 1, 1]) ∧
    (["_", "g", "o", "x", "_"] : List String).length =
      ([0, 2, 2, 0, 0] : List Nat).length ∧
    ([1, 2, 1, 1] : List Nat).sum = 5 := by
  have h := C10_parallel_invariant.1 .waitau "go2 x" ["_", "g", "o", "x", "_"]
    [0, 2, 2, 0, 0] [1, 2, 1, 1] rfl
  refine ⟨rfl, h.1, ?_⟩
  have h2 := h.2
  simp only [List.length_cons, List.length_nil] at h2
  exact h2

/-- Claim C7: for a fixed (language, voice) key, repeated sequential
get-or-load operations load at most once — the first call for a key inserts
the handle keyed by `{language}_{voice}`, every later call returns that same
handle without reloading — and no key is ever evicted or replaced, also
through a whole `generate_audio` call. -/
theorem C7_cache_get_or_load :
    (∀ (models : Models) (language : Language) (voice : String),
      models.lookup (modelKey language voice) = none →
      getOrLoad models language voice =
        (models ++ [(modelKey language voice,
            load_model (modelKey language voice) language)],
          load_model (modelKey language voice) language)) ∧
    (∀ (models : Models) (language : Language) (voice : String) (m : Model),
      models.lookup (modelKey language voice) = some m →
      getOrLoad models language voice = (models, m)) ∧
    (∀ (models : Models) (language : Language) (voice : String),
      getOrLoad (getOrLoad models language voice).1 language voice =
        getOrLoad models language voice) ∧
    (∀ (table : SymbolTable) (models : Models) (language : Language)
        (voice text k : String) (v : Model),
      models.lookup k = some v →
      (generate_audio table models language voice text).1.lookup k = some v) := by
  refine ⟨fun _ _ _ h => getOrLoad_miss h, fun _ _ _ _ h => getOrLoad_hit h,
    fun models language voice => getOrLoad_idem models language voice, ?_⟩
  intro table models language voice text k v h
  rw [generate_audio_models]
  exact getOrLoad_preserves h

/-- Witness for C7: first load of `waitau_male` into the empty cache. -/
theorem C7_cache_get_or_load_witness :
    (([] : Models).lookup (modelKey .waitau "male") = none) ∧
    getOrLoad [] .waitau "male" =
      ([("waitau_male", load_model "waitau_male" .waitau)],
        load_model "waitau_male" .waitau) := by
  refine ⟨by decide, ?_⟩
  exact (C7_cache_get_or_load.1 [] .waitau "male" (by decide)).trans (by decide)

/-- Claim C2: for every multi-character syllable whose last character is one
of `'0'`–`'6'`, the extracted tone is that digit's numeric value and the
syllable does not raise `ToneError`; a last character `'7'`, `'8'`, `'9'`
or any non-digit fails with `ToneError` naming the syllable; end to end,
`/tts/hakka/pit8` yields status 500 with body
`{"error": "Invalid syllable", "message": "'pit8' does not end with tone 0~6"}`,
whatever the symbol table and cache state. -/
theorem C2_tone_digit_extraction :
    (∀ (language : Language) (syl : List Char) (c : Char),
      2 ≤ syl.length → syl.getLastD ' ' = c → '0' ≤ c → c ≤ '6' →
      toneOfChar c = some (c.toNat - '0'.toNat) ∧
        ∀ msg, encodeSyllable language syl ≠ .error (.tone msg)) ∧
    (∀ (language : Language) (syl : List Char) (c : Char),
      2 ≤ syl.length → syl.getLastD ' ' = c →
      (c = '7' ∨ c = '8' ∨ c = '9' ∨ digitVal c = none) →
      encodeSyllable language syl = .error (.tone (toneErrMsg syl))) ∧
    (∀ (table : SymbolTable) (models : Models),
      (app table models "/tts/hakka/pit8" "").2 =
        (500, Body.err "Invalid syllable"
          (some "'pit8' does not end with tone 0~6"))) := by
  refine ⟨?_, ?_, fun table models => rfl⟩
  · intro language syl c hlen hlast h0 h6
    have h48 : 48 ≤ c.toNat := h0
    have h54 : c.toNat ≤ 54 := h6
    have hdv : digitVal c = some (c.toNat - 48) := by
      simp only [digitVal, ndZeros, List.findSome?_cons]
      rw [if_pos ⟨h48, by omega⟩]
    have htone : toneOfChar c = some (c.toNat - 48) := by
      simp only [toneOfChar, hdv]
      rw [if_pos (by omega)]
    refine ⟨htone, ?_⟩
    intro msg hcontra
    have hne : ¬ syl.length = 1 := by omega
    rw [encodeSyllable.eq_def, if_neg hne, hlast, htone] at hcontra
    cases language <;> simp at hcontra
  · intro language syl c hlen hlast hc
    have htone : toneOfChar c = none := by
      rcases hc with rfl | rfl | rfl | hdv
      · decide
      · decide
      · decide
      · simp [toneOfChar, hdv]
    have hne : ¬ syl.length = 1 := by omega
    rw [encodeSyllable.eq_def, if_neg hne, hlast, htone]

/-- Witness for C2: syllables `"pa3"` (valid tone 3) and `"pit8"` (invalid),
and the end-to-end request. -/
theorem C2_tone_digit_extraction_witness :
    (toneOfChar '3' = some 3 ∧
      ∀ msg, encodeSyllable .hakka ['p', 'a', '3'] ≠ .error (.tone msg)) ∧
    encodeSyllable .waitau ['p', 'i', 't', '8'] =
      .error (.tone (toneErrMsg ['p', 'i', 't', '8'])) ∧
    (app emptyTable [] "/tts/hakka/pit8" "").2 =
      (500, Body.err "Invalid syllable"
        (some "'pit8' does not end with tone 0~6")) := by
  refine ⟨?_, ?_, C2_tone_digit_extraction.2.2 emptyTable []⟩
  · have h := C2_tone_digit_extraction.1 .hakka ['p', 'a', '3'] '3'
      (by decide) (by decide) (by decide) (by decide)
    exact ⟨h.1.trans (by decide), h.2⟩
  · exact C2_tone_digit_extraction.2.1 .waitau ['p', 'i', 't', '8'] '8'
      (by decide) (by decide) (Or.inr (Or.inl rfl))

/-- Claim C6: interspersion maps a length-`n` sequence to one of length
`2n+1` with the blank (id 0) at every even position and the original
elements in order at the odd positions; it is applied identically and
independently to the phone-id, tone and language-id sequences, which
therefore remain positionally aligned — equal lengths before and after. -/
theorem C6_interspersion_alignment :
    (∀ (lst : List Nat) (k d : Nat),
      (intersperse lst 0).length = 2 * lst.length + 1 ∧
      (k ≤ lst.length → (intersperse lst 0).getD (2 * k) d = 0) ∧
      (k < lst.length →
        (intersperse lst 0).getD (2 * k + 1) d = lst.getD k d)) ∧
    (∀ (table : SymbolTable) (language : Language) (text : String)
        (seqs : Sequences),
      buildSequences table language text = .ok seqs →
      ∃ phoneIds toneIds langIds : List Nat,
        phoneIds.length = toneIds.length ∧
        toneIds.length = langIds.length ∧
        seqs = ⟨intersperse phoneIds 0, intersperse toneIds 0,
          intersperse langIds 0⟩ ∧
        seqs.phoneIds.length = 2 * phoneIds.length + 1 ∧
        seqs.toneIds.length = 2 * phoneIds.length + 1 ∧
        seqs.langIds.length = 2 * phoneIds.length + 1) := by
  constructor
  · intro lst k d
    exact ⟨intersperse_length lst 0,
      fun hk => intersperse_getD_even lst 0 k d hk,
      fun hk => intersperse_getD_odd lst 0 k d hk⟩
  · intro table language text seqs h
    simp only [buildSequences, Bind.bind, Except.bind] at h
    cases he : encode language text with
    | error e => rw [he] at h; cases h
    | ok out =>
      obtain ⟨phones, tones, w2⟩ := out
      rw [he] at h
      dsimp only [] at h
      cases hl : lookupSymbols table phones with
      | error e => rw [hl] at h; cases h
      | ok ids =>
        rw [hl] at h
        cases h
        have hlen := lookupSymbols_length table phones ids hl
        have henc := encode_parallel language text phones tones w2 he
        refine ⟨ids, tones, List.replicate ids.length 0, ?_, ?_, rfl, ?_, ?_, ?_⟩
        · rw [hlen, henc.1]
        · rw [List.length_replicate, hlen, henc.1]
        · exact intersperse_length ids 0
        · rw [intersperse_length tones 0, hlen, henc.1]
        · rw [intersperse_length (List.replicate ids.length 0) 0,
            List.length_replicate]

/-- Witness for C6: the built sequences for waitau `"go2"` under the sample
table. -/
theorem C6_interspersion_alignment_witness :
    buildSequences sampleTable .waitau "go2" =
      .ok ⟨[0, 1, 0, 2, 0, 3, 0, 1, 0], [0, 0, 0, 2, 0, 2, 0, 0, 0],
        [0, 0, 0, 0, 0, 0, 0, 0, 0]⟩ ∧
    ∃ phoneIds toneIds langIds : List Nat,
      phoneIds.length = toneIds.length ∧
      toneIds.length = langIds.length ∧
      (⟨[0, 1, 0, 2, 0, 3, 0, 1, 0], [0, 0, 0, 2, 0, 2, 0, 0, 0],
        [0, 0, 0, 0, 0, 0, 0, 0, 0]⟩ : Sequences) =
        ⟨intersperse phoneIds 0, intersperse toneIds 0,
          intersperse langIds 0⟩ ∧
      ([0, 1, 0, 2, 0, 3, 0, 1, 0] : List Nat).length =
        2 * phoneIds.length + 1 ∧
      ([0, 0, 0, 2, 0, 2, 0, 0, 0] : List Nat).length =
        2 * phoneIds.length + 1 ∧
      ([0, 0, 0, 0, 0, 0, 0, 0, 0] : List Nat).length =
        2 * phoneIds.length + 1 :=
  ⟨rfl, C6_interspersion_alignment.2 sampleTable .waitau "go2" _ rfl⟩

/-- Counterexample to claim C1 as stated: for the hakka syllable `yi0`
(valid trailing tone digit `0`) the medial is `"i"`, not the placeholder
`"#"`, yet its emitted tone is 0 — the claimed "the medial's tone is 0 if
and only if the medial is the placeholder '#'" fails whenever the
syllable's own tone is 0 and the medial is `"i"`. -/
theorem C1_medial_tone_counterexample :
    ¬ (∀ (syl : List Char) (phones : List String) (tones : List Nat)
        (w : Nat), encodeSyllable .hakka syl = .ok (phones, tones, w) →
        (tones.getD 1 7 = 0 ↔ phones.getD 1 "" = "#")) := by
  intro hclaim
  have h := hclaim ['y', 'i', '0'] ["y", "i", "i"] [0, 0, 0] 3 rfl
  have hing : ("i" : String) = "#" := h.mp rfl
  exact absurd hing (by decide)

/-- Claim C1 (amended): for every multi-character syllable with a valid
trailing tone digit, the encoder takes the nucleus index as the index of
the first vowel in {a, e, i, o, u, ä, ö, ü, æ} (0 when no vowel occurs)
and the initial as the prefix strictly before it; for waitau it emits
exactly the 2 phones [initial, final] (final running from the nucleus to
just before the tone digit), both carrying the syllable's tone, with
word-count 2; for hakka it emits exactly the 3 phones
[initial, medial, final] with word-count 3, where the medial is `"i"`
exactly when the initial is the glide trigger `"y"` or the nucleus
character is `'i'` with a distinct later vowel (in which case the final
starts at that second vowel), `"#"` otherwise — and the medial's tone is 0
when the medial is `"#"` and the syllable's tone otherwise (for a tone-0
syllable a medial `"i"` also carries tone 0, which is where the original
"if and only if" fails). -/
theorem C1_syllable_decomposition (language : Language) (syl : List Char)
    (hlen : 2 ≤ syl.length) (tone : Nat)
    (htone : toneOfChar (syl.getLastD ' ') = some tone) :
    encodeSyllable language syl =
      (let index := (firstVowelIdx syl).getD 0
       let initial := String.mk (syl.take index)
       let second := firstVowelIdx (syl.drop (index + 1))
       let rescanned := (syl.getD index ' ' == 'i') && second.isSome
       let medial : String :=
         if (initial == "y") || rescanned then "i" else "#"
       let finalIndex :=
         if rescanned then index + 1 + second.getD 0 else index
       match language with
       | .waitau =>
         .ok ([initial, String.mk ((syl.drop index).dropLast)],
           [tone, tone], 2)
       | .hakka =>
         .ok ([initial, medial, String.mk ((syl.drop finalIndex).dropLast)],
           [tone, if medial = "#" then 0 else tone, tone], 3)) := by
  have hne : ¬ syl.length = 1 := by omega
  rw [encodeSyllable.eq_def, if_neg hne, htone]
  cases hfv : firstVowelIdx syl with
  | none =>
    have hvl : vowelIdxs syl = [] := by
      rw [vowelIdxs_eq_from, vowelIdxsFrom_eq, hfv]
    have hnv := firstVowelIdx_none hfv
    have hd0 : syl.getD 0 ' ' ≠ 'i' := by
      cases syl with
      | nil => simp at hlen
      | cons c cs =>
        intro hc
        rw [List.getD_cons_zero] at hc
        subst hc
        have := hnv 'i' (List.mem_cons_self _ _)
        simp [isVowel, vowelSet] at this
    have hd0n : syl[0]?.getD ' ' ≠ 'i' := by simpa using hd0
    cases language
    · simp [hvl, hfv]
    · simp [hvl, hfv, hd0n]
  | some i =>
    have hvhead : (vowelIdxs syl).head?.getD 0 = i := by
      have h := vowelIdxs_headD syl
      rw [hfv] at h
      simpa using h
    by_cases hni : syl.getD i ' ' = 'i'
    · have hnin : syl[i]?.getD ' ' = 'i' := by simpa using hni
      cases hsec : firstVowelIdx (syl.drop (i + 1)) with
      | none =>
        have hget1 : (vowelIdxs syl)[1]?.getD i = i := by
          have h := vowelIdxs_getD_one syl i i hfv
          rw [hsec] at h
          simpa using h
        cases language
        · simp [hvhead, hfv]
        · simp [hvhead, hfv, hnin, hget1, hsec]
      | some j =>
        have hget1 : (vowelIdxs syl)[1]?.getD i = i + 1 + j := by
          have h := vowelIdxs_getD_one syl i i hfv
          rw [hsec] at h
          simpa using h
        cases language
        · simp [hvhead, hfv]
        · simp [hvhead, hfv, hnin, hget1, hsec]
          have hne2 : i + 1 + j ≠ i := by omega
          refine ⟨fun hc => absurd hc hne2, ?_⟩
          rw [if_neg hne2]
          intro hc
          exact absurd hc (by decide)
    · have hnin : ¬ syl[i]?.getD ' ' = 'i' := by simpa using hni
      cases language
      · simp [hvhead, hfv]
      · simp [hvhead, hfv, hnin]

/-- Witness for the amended C1: the hakka syllable `"yiau2"` (glide initial
`"y"`, nucleus `'i'` with the later vowel `'a'`, tone 2). -/
theorem C1_syllable_decomposition_witness :
    (2 ≤ (['y', 'i', 'a', 'u', '2'] : List Char).length) ∧
    toneOfChar ((['y', 'i', 'a', 'u', '2'] : List Char).getLastD ' ') =
      some 2 ∧
    encodeSyllable .hakka ['y', 'i', 'a', 'u', '2'] =
      .ok (["y", "i", "au"], [2, 2, 2], 3) := by
  refine ⟨by decide, by decide, ?_⟩
  have h := C1_syllable_decomposition .hakka ['y', 'i', 'a', 'u', '2']
    (by decide) 2 (by decide)
  rw [h]
  rfl

/-- Counterexample to claim C3 as stated: the malformed query `voice`
(a field with no `=`) on a well-formed route yields the generic 404, not a
500 with a descriptive message — `parse_qs(..., strict_parsing=True)`
raises `ValueError`, which lines 59–60 map to 404 "Page not found". -/
theorem C3_malformed_query_counterexample :
    (app emptyTable [] "/tts/waitau/go2" "voice").2 =
      (404, Body.err "Page not found" none) := by decide

/-- Claim C3 (amended): on a well-formed route, bad option values — more
than one `voice` or `speed` value, a `voice` outside {male, female}, an
unparsable or out-of-range `speed` — yield status 500 with error
"Invalid option" and a descriptive message naming the offending option,
and every successfully parsed option pair is validated; but malformed
key=value syntax yields the generic 404 (strict parsing raises
`ValueError`), contrary to the original "never the generic 404". -/
theorem C3_option_validation (table : SymbolTable) (models : Models)
    (query : String) :
    (∀ msg, parseOptions query = .error (.queryErr msg) →
      (app table models "/tts/waitau/go2" query).2 =
        (500, Body.err "Invalid option" (some msg))) ∧
    (parseOptions query = .error .valueErr →
      (app table models "/tts/waitau/go2" query).2 =
        (404, Body.err "Page not found" none)) ∧
    (∀ voice speed, parseOptions query = .ok (voice, speed) →
      (voice = "male" ∨ voice = "female") ∧
        speedOutOfRange speed = false) ∧
    parseOptions "voice" = .error .valueErr ∧
    parseOptions "voice=female&voice=female" = .error (.queryErr
      "Expected at most a single 'voice', received 2 values") ∧
    parseOptions "voice=robot" = .error (.queryErr
      ("The 'voice' query must be either 'male' or 'female' " ++
        "(defaults to 'male'), received 'robot'")) ∧
    parseOptions "speed=2.5" = .error (.queryErr
      ("The 'speed' query must be a decimal number between 0.5 and 2 " ++
        "(defaults to 1), received '2.5'")) ∧
    parseOptions "speed=abc" = .error (.queryErr
      ("The 'speed' query must be a decimal number between 0.5 and 2 " ++
        "(defaults to 1), received 'abc'")) := by
  have hroute : route "/tts/waitau/go2" = .ok (.waitau, "go2") := rfl
  refine ⟨?_, ?_, fun voice speed h => parseOptions_ok_valid h,
    rfl, rfl, rfl, rfl, rfl⟩
  · intro msg h
    rw [app_opt_err hroute h]
    rfl
  · intro h
    rw [app_opt_err hroute h]
    rfl

/-- Witness for the amended C3: the invalid voice `robot`. -/
theorem C3_option_validation_witness :
    (app emptyTable [] "/tts/waitau/go2" "voice=robot").2 =
      (500, Body.err "Invalid option"
        (some ("The 'voice' query must be either 'male' or 'female' " ++
          "(defaults to 'male'), received 'robot'"))) :=
  (C3_option_validation emptyTable [] "voice=robot").1 _ rfl

/-- Counterexample to claim C4 as stated: the path `/tts/waitau/gÿ2`
consists solely of Latin-1 characters — every byte of the request line is
representable in a single-byte codec — yet the pipeline rejects it with the
decode error: the path bytes are decoded as UTF-8 (the bare `.decode()` of
line 36), not in a byte-for-byte single-byte codec, so arbitrary
request-line bytes are not tolerated. -/
theorem C4_single_byte_codec_counterexample :
    (∀ c ∈ ("/tts/waitau/gÿ2" : String).data, c.toNat < 256) ∧
    (app emptyTable [] "/tts/waitau/gÿ2" "").2 =
      (500, Body.err "Error while decoding URI: invalid characters"
        (some "ÿ")) :=
  ⟨by decide, by decide⟩

theorem latin1Encode_ok {cs : List Char} (h : ∀ c ∈ cs, c.toNat < 256) :
    latin1Encode cs = .ok (cs.map Char.toNat) := by
  induction cs with
  | nil => rfl
  | cons c rest ih =>
    have hc : c.toNat < 256 := h c (List.mem_cons_self _ _)
    simp only [latin1Encode, hc, if_pos,
      ih fun d hd => h d (List.mem_cons_of_mem _ hd), List.map_cons]
    rfl

/-- Claim C4 (amended): the request path (a WSGI latin-1 `str`) is
re-encoded byte-for-byte via latin-1 — one byte per character below U+0100
— and those raw bytes are then decoded as UTF-8, not in a single-byte
codec; every path on which that decode chain fails yields status 500 with
the structured error naming the offending byte range (rendered through
latin-1 into the message). -/
theorem C4_path_decode (table : SymbolTable) (models : Models)
    (path query : String) :
    ((∀ c ∈ path.data, c.toNat < 256) →
      latin1Encode path.data = .ok (path.data.map Char.toNat)) ∧
    (∀ msg, recodeLatin1Utf8 path = .error msg →
      (app table models path query).2 =
        (500, Body.err "Error while decoding URI: invalid characters"
          (some msg))) := by
  constructor
  · exact fun h => latin1Encode_ok h
  · intro msg h
    have hroute : route path = .error (.unicode msg) := by
      unfold route
      rw [h]
      rfl
    rw [app_route_err hroute]
    rfl

/-- Witness for the amended C4: the Latin-1 path `/tts/hakka/pö1`, whose
byte 0xF6 is an invalid UTF-8 start byte. -/
theorem C4_path_decode_witness :
    latin1Encode ("/tts/hakka/pö1" : String).data =
      .ok (("/tts/hakka/pö1" : String).data.map Char.toNat) ∧
    recodeLatin1Utf8 "/tts/hakka/pö1" = .error "ö" ∧
    (app emptyTable [] "/tts/hakka/pö1" "").2 =
      (500, Body.err "Error while decoding URI: invalid characters"
        (some "ö")) := by
  have h := C4_path_decode emptyTable [] "/tts/hakka/pö1" ""
  exact ⟨h.1 (by decide), rfl, h.2 "ö" rfl⟩

/-- Counterexample to claim C5 as stated: starting from the empty cache,
the failing request `/tts/hakka/pit8` (ToneError, status 500) nevertheless
loads and caches the `hakka_male` model — the fetch-or-load of lines 78–80
runs before encoding, so the cache after the failed request differs from
the cache before it. -/
theorem C5_cache_growth_counterexample :
    app emptyTable [] "/tts/hakka/pit8" "" =
      ([("hakka_male", load_model "hakka_male" .hakka)],
        (500, Body.err "Invalid syllable"
          (some "'pit8' does not end with tone 0~6"))) ∧
    ([("hakka_male", load_model "hakka_male" .hakka)] : Models) ≠ [] :=
  ⟨by decide, by decide⟩

/-- Claim C5 (amended): a failed request never removes or replaces a cache
entry — every prior entry survives with the same handle — and can change
the cache only by inserting the request's own missing (language, voice)
entry with the deterministic handle `load_model` builds for it;
well-formedness of the cache is preserved, and the response to any request
depends only on the request, not on which well-formed cache state the
process is in — so subsequent requests behave as if the failed request had
never happened, except that its key may already be loaded. -/
theorem C5_failure_cache_isolation (table : SymbolTable) (models : Models)
    (path query : String) :
    (∀ k v, models.lookup k = some v →
      (app table models path query).1.lookup k = some v) ∧
    ((app table models path query).1 = models ∨
      ∃ lang : Language, ∃ voice : String,
        (voice = "male" ∨ voice = "female") ∧
        models.lookup (modelKey lang voice) = none ∧
        (app table models path query).1 =
          models ++ [(modelKey lang voice,
            load_model (modelKey lang voice) lang)]) ∧
    (WFCache models → WFCache (app table models path query).1) ∧
    (∀ (models₂ : Models) (p₂ q₂ : String),
      WFCache models → WFCache models₂ →
      (app table models p₂ q₂).2 = (app table models₂ p₂ q₂).2) := by
  refine ⟨?_, app_models_shape table models path query,
    fun h => app_preserves_WF h,
    fun ms2 p2 q2 h1 h2 => app_resp_WF p2 q2 h1 h2⟩
  intro k v h
  rcases app_models_shape table models path query with he | ⟨lang, voice, -, -, he⟩
  · rw [he]; exact h
  · rw [he]; exact lookup_append_left h

/-- Witness for the amended C5: the failing `pit8` request preserves a
prior entry, and its response is identical from the pre-failure and
post-failure caches. -/
theorem C5_failure_cache_isolation_witness :
    (app emptyTable [("waitau_male", load_model "waitau_male" .waitau)]
      "/tts/hakka/pit8" "").1.lookup "waitau_male" =
        some (load_model "waitau_male" .waitau) ∧
    (app emptyTable [("hakka_male", load_model "hakka_male" .hakka)]
      "/tts/hakka/pit8" "").2 =
      (app emptyTable [] "/tts/hakka/pit8" "").2 := by
  have hwf1 : WFCache [("hakka_male", load_model "hakka_male" .hakka)] := by
    intro p hp
    rw [List.mem_singleton.mp hp]
    exact ⟨.hakka, "male", Or.inl rfl, by decide⟩
  have hwf0 : WFCache ([] : Models) := fun p hp => absurd hp (by simp)
  constructor
  · exact (C5_failure_cache_isolation emptyTable
      [("waitau_male", load_model "waitau_male" .waitau)]
      "/tts/hakka/pit8" "").1 "waitau_male"
      (load_model "waitau_male" .waitau) (by decide)
  · exact (C5_failure_cache_isolation emptyTable
      [("hakka_male", load_model "hakka_male" .hakka)]
      "/tts/hakka/pit8" "").2.2.2 [] "/tts/hakka/pit8" "" hwf1 hwf0

/-- Counterexample to claim C9 as stated: in the interleaving where both
threads pass the membership check before either performs its load
(schedule: thread 0 checks, thread 1 checks, thread 0 loads and inserts,
thread 1 loads and inserts), a never-before-seen key is loaded twice — the
unguarded check-then-load of lines 78–80 does not guarantee at most one
load under concurrent first access. -/
theorem C9_double_load_counterexample :
    (([] : Models).lookup "hakka_male" = none) ∧
    runRace "hakka_male" .hakka [false, true, false, true]
        ⟨[], 0, .start, .start⟩ =
      ⟨[("hakka_male", load_model "hakka_male" .hakka)], 2, .done, .done⟩ ∧
    ¬ (runRace "hakka_male" .hakka [false, true, false, true]
        ⟨[], 0, .start, .start⟩).loads ≤ 1 :=
  ⟨by decide, by decide, by decide⟩

/-- Claim C9 (amended): under concurrent first access to a
never-before-seen key through the unguarded check-then-load of lines
78–80, every interleaving performs at most two loads (not at most one: two
simultaneous first requests may both load — see the counterexample), and
whenever both threads have finished, the key maps to the fully-initialized
deterministic handle and at least one load has happened, so subsequent
reads observe a complete handle. -/
theorem C9_race_bounds (name : String) (lang : Language) (ms : Models)
    (sched : List Bool) (h0 : ms.lookup name = none) :
    (runRace name lang sched ⟨ms, 0, .start, .start⟩).loads ≤ 2 ∧
    ((runRace name lang sched ⟨ms, 0, .start, .start⟩).pc0 = .done →
     (runRace name lang sched ⟨ms, 0, .start, .start⟩).pc1 = .done →
     (runRace name lang sched ⟨ms, 0, .start, .start⟩).models.lookup name =
        some (load_model name lang) ∧
      1 ≤ (runRace name lang sched ⟨ms, 0, .start, .start⟩).loads) := by
  obtain ⟨g1, g2, g3, g4, g5⟩ := runRace_inv name lang sched
    ⟨ms, 0, .start, .start⟩ (Or.inl h0)
    (fun hc => by rw [h0] at hc; cases hc)
    (fun hc => by simp at hc)
    (fun hc => by simp at hc)
    (by simp [pendLoads])
  refine ⟨by omega, fun hd0 _ => ⟨g3 hd0, g2 (g3 hd0)⟩⟩

/-- Witness for the amended C9: the sequential schedule (thread 0 checks,
loads and inserts; thread 1 then hits) loads exactly once and leaves the
complete handle cached. -/
theorem C9_race_bounds_witness :
    (([] : Models).lookup "waitau_female" = none) ∧
    (runRace "waitau_female" .waitau [false, false, true]
      ⟨[], 0, .start, .start⟩).loads ≤ 2 ∧
    (runRace "waitau_female" .waitau [false, false, true]
      ⟨[], 0, .start, .start⟩).models.lookup "waitau_female" =
        some (load_model "waitau_female" .waitau) := by
  have h := C9_race_bounds "waitau_female" .waitau [] [false, false, true]
    (by decide)
  exact ⟨by decide, h.1, (h.2 (by decide) (by decide)).1⟩

end TTSApi
